import Mathlib

/-!
# Verification of the fedimint consensus core

A shallow embedding of the consensus core of the fedimint repository:

* `FundingVerifier`, `submit_transaction`, `process_transaction`,
  `process_consensus_outcome`, `save_epoch_history` and `transaction_status`
  from `fedimint-server/src/consensus/mod.rs`;
* the module interconnect from `fedimint-server/src/consensus/interconnect.rs`;
* the RocksDB transaction layer from `fedimint-rocksdb/src/lib.rs`.

The persistent key-value store is modelled as a record of typed association
lists, one per key prefix, mirroring the typed record layer
(`AcceptedTransactionKey`, `RejectedTransactionKey`, `ProposedTransactionKey`,
`DropPeerKey`, `EpochHistoryKey`, `LastEpochKey`) plus a single module-owned
subspace. Modules may only read and write through their module-prefixed view,
so their effects are confined to the `modState` component by construction.

Module business logic (mint/wallet/ln), the threshold-signature scheme and the
transaction-digest and signature checks are pluggable in the source
(`ServerModule`, `epoch_pk_set`, `Transaction::validate_signature`); they are
abstracted here as function-valued parameters (`Modules`, `EpochConfig`).
`Amount` (a `u64` of millisats) is modelled as `Nat`.

The file is organised as: definitions first, then the theorems.
-/

namespace Fedimint

/-! ## Association-list key-value maps

Typed view of one key prefix of the store: a list of `(key, value)` bindings
with map semantics (`alInsert` replaces any previous binding of the key).
-/

def alGet {α : Type} : List (Nat × α) → Nat → Option α
  | [], _ => none
  | (k, v) :: rest, k' => if k' = k then some v else alGet rest k'

def alRemove {α : Type} : List (Nat × α) → Nat → List (Nat × α)
  | [], _ => []
  | (k, v) :: rest, k' =>
      if k' = k then alRemove rest k' else (k, v) :: alRemove rest k'

def alInsert {α : Type} (l : List (Nat × α)) (k : Nat) (v : α) : List (Nat × α) :=
  (k, v) :: alRemove l k

def countKey {α : Type} : List (Nat × α) → Nat → Nat
  | [], _ => 0
  | (k, _) :: rest, k' => (if k' = k then 1 else 0) + countKey rest k'

/-! ## Amounts and the funding verifier

`Amount` is `u64` millisats in the source; modelled as `Nat`.
`TransactionItemAmount` is `fedimint_api::module::TransactionItemAmount`
(`{ amount, fee }`), the value returned by input/output validation and
application. -/

structure TransactionItemAmount where
  amount : Nat
  fee : Nat
deriving DecidableEq

/-- `FundingVerifier` from `fedimint-server/src/consensus/mod.rs`: running
totals of input amounts, output amounts and fees of one transaction. -/
structure FundingVerifier where
  input_amount : Nat
  output_amount : Nat
  fee_amount : Nat
deriving DecidableEq

def FundingVerifier.default : FundingVerifier :=
  { input_amount := 0, output_amount := 0, fee_amount := 0 }

def FundingVerifier.add_input (fv : FundingVerifier)
    (ia : TransactionItemAmount) : FundingVerifier :=
  { fv with
    input_amount := fv.input_amount + ia.amount
    fee_amount := fv.fee_amount + ia.fee }

def FundingVerifier.add_output (fv : FundingVerifier)
    (oa : TransactionItemAmount) : FundingVerifier :=
  { fv with
    output_amount := fv.output_amount + oa.amount
    fee_amount := fv.fee_amount + oa.fee }

/-- `TransactionError` from `fedimint-server/src/transaction.rs`.
Modelled from the spec: `transaction.rs` is not under `src/`; the spec gives
the variants unbalanced funding (carrying the three totals) and invalid
signature. -/
inductive TransactionError where
  | UnbalancedTransaction (inputs outputs fee : Nat)
  | InvalidSignature
deriving DecidableEq

def FundingVerifier.verify_funding (fv : FundingVerifier) :
    Except TransactionError Unit :=
  if fv.input_amount = fv.output_amount + fv.fee_amount then
    Except.ok ()
  else
    Except.error (TransactionError.UnbalancedTransaction
      fv.input_amount fv.output_amount fv.fee_amount)

/-- Accumulate a list of inputs then a list of outputs, as both
`submit_transaction` and `process_transaction` do. -/
def accumulateFunding (ins outs : List TransactionItemAmount) : FundingVerifier :=
  List.foldl (fun fv oa => FundingVerifier.add_output fv oa)
    (List.foldl FundingVerifier.add_input FundingVerifier.default ins) outs

def sumAmount (l : List TransactionItemAmount) : Nat :=
  (l.map TransactionItemAmount.amount).sum

def sumFee (l : List TransactionItemAmount) : Nat :=
  (l.map TransactionItemAmount.fee).sum

/-! ## Transactions

A transaction is an ordered list of typed inputs, an ordered list of typed
outputs and a signature. Each input/output carries the `ModuleKey` of the
owning module and an opaque module payload. The consensus-encoding digest
`tx_hash` is abstracted by an injective pairing of the encoded fields. -/

structure Input where
  moduleKey : Nat
  data : Nat
deriving DecidableEq

structure Output where
  moduleKey : Nat
  data : Nat
deriving DecidableEq

structure Transaction where
  inputs : List Input
  outputs : List Output
  signature : Nat
deriving DecidableEq

def encList {α : Type} (f : α → Nat) : List α → Nat
  | [] => 0
  | x :: rest => Nat.pair (f x) (encList f rest) + 1

def Input.enc (i : Input) : Nat := Nat.pair i.moduleKey i.data

def Output.enc (o : Output) : Nat := Nat.pair o.moduleKey o.data

/-- The consensus-encoding digest of a transaction (`Transaction::tx_hash`),
abstracted as a pairing of the encoded inputs, outputs and signature. -/
def Transaction.txHash (t : Transaction) : Nat :=
  Nat.pair (encList Input.enc t.inputs)
    (Nat.pair (encList Output.enc t.outputs) t.signature)

structure OutPoint where
  txid : Nat
  out_idx : Nat
deriving DecidableEq

/-- `InputMeta`: amount/fee plus the public keys the input's validator
contributes to signature verification (`puk_keys` in the source). -/
structure InputMeta where
  amount : TransactionItemAmount
  pukKeys : List Nat
deriving DecidableEq

/-- A module consensus item: the owning module key plus an opaque payload. -/
structure ModuleCI where
  moduleKey : Nat
  payload : Nat
deriving DecidableEq

/-- The module-owned database subspace (everything behind the
module-prefixed view). -/
abbrev ModDb := List (Nat × Nat)

instance {ε α : Type} [DecidableEq ε] [DecidableEq α] : DecidableEq (Except ε α) :=
  fun x y =>
    match x, y with
    | Except.ok a, Except.ok b =>
        if h : a = b then isTrue (by rw [h])
        else isFalse (by intro hh; cases hh; exact h rfl)
    | Except.error a, Except.error b =>
        if h : a = b then isTrue (by rw [h])
        else isFalse (by intro hh; cases hh; exact h rfl)
    | Except.ok _, Except.error _ => isFalse (by intro hh; cases hh)
    | Except.error _, Except.ok _ => isFalse (by intro hh; cases hh)

/-- The registered `ServerModule` set, abstracted as dispatch functions
(each function may dispatch internally on the input's/output's `moduleKey`).
`validate_*` are pure reads of the module subspace; `apply_*` additionally
return the mutated subspace; `sigOk` abstracts
`Transaction::validate_signature` against the flattened public-key list. -/
structure Modules where
  buildCache : Nat → List Input → Nat
  validateInput : Option Nat → ModDb → Input → Except String InputMeta
  applyInput : Option Nat → ModDb → Input → Except String (InputMeta × ModDb)
  validateOutput : ModDb → Output → Except String TransactionItemAmount
  applyOutput : ModDb → Output → OutPoint → Except String (TransactionItemAmount × ModDb)
  beginEpoch : Nat → ModDb → List (Nat × ModuleCI) → ModDb
  endEpoch : List Nat → ModDb → List Nat × ModDb
  outputStatus : ModDb → OutPoint → Nat
  sigOk : Transaction → List Nat → Bool

/-- `TransactionSubmissionError` from `fedimint-server/src/consensus/mod.rs`:
`TransactionError(e)`, `ModuleError(tx_hash, e)` or
`TransactionConflictError`. -/
inductive TransactionSubmissionError where
  | TransactionError (e : TransactionError)
  | ModuleError (txHash : Nat) (e : String)
  | TransactionConflictError
deriving DecidableEq

/-- The `"\x7b:?\x7d"`-style debug formatting used when persisting a
rejection record. -/
def debugFormat : TransactionSubmissionError → String
  | TransactionSubmissionError.TransactionError
      (TransactionError.UnbalancedTransaction i o f) =>
      "UnbalancedTransaction(inputs: " ++ toString i ++ ", outputs: " ++
        toString o ++ ", fee: " ++ toString f ++ ")"
  | TransactionSubmissionError.TransactionError TransactionError.InvalidSignature =>
      "InvalidSignature"
  | TransactionSubmissionError.ModuleError h e =>
      "ModuleError(" ++ toString h ++ ", " ++ e ++ ")"
  | TransactionSubmissionError.TransactionConflictError =>
      "TransactionConflictError"

/-! ## Consensus items, epoch history and the persistent state -/

inductive ConsensusItem where
  | epochInfo (share : Nat)
  | transaction (tx : Transaction)
  | moduleItem (mci : ModuleCI)
deriving DecidableEq

/-- `AcceptedTransaction`: the value persisted under
`AcceptedTransactionKey(tx_hash)`. -/
structure AcceptedTransaction where
  epoch : Nat
  transaction : Transaction
deriving DecidableEq

/-- `EpochHistory`.
Modelled from the spec: the type lives in `fedimint-core/src/epoch.rs`, which
is not under `src/`. Per the spec it is
`{outcome = {epoch, items}, hash, previous_hash, last_signature}` with
`hash_n = H(encode(outcome_n) || hash_{n-1})`; the digest is abstracted by a
pairing function and the threshold signature by a `Nat`. -/
structure EpochHistory where
  epoch : Nat
  items : List (Nat × List ConsensusItem)
  hash : Nat
  previous_hash : Nat
  last_signature : Option Nat
deriving DecidableEq

/-- The consensus-relevant persistent state: one typed association list per
key prefix of §6 of the spec, plus the module-owned subspace. -/
structure Db where
  accepted : List (Nat × AcceptedTransaction)
  rejected : List (Nat × String)
  proposed : List (Nat × Transaction)
  dropPeers : List (Nat × Unit)
  epochs : List (Nat × EpochHistory)
  lastEpoch : Option Nat
  modState : ModDb
deriving DecidableEq

def Db.fresh : Db :=
  { accepted := [], rejected := [], proposed := [], dropPeers := []
    epochs := [], lastEpoch := none, modState := [] }

/-! ## transaction_status -/

/-- `fedimint_core::outcome::TransactionStatus`. -/
inductive TransactionStatus where
  | Accepted (epoch : Nat) (outputs : List Nat)
  | Rejected (message : String)
deriving DecidableEq

/-- The per-output outcomes collected in the `Accepted` branch of
`transaction_status` (each module's `output_status` at
`OutPoint(txid, out_idx)`). -/
def statusOutputs (M : Modules) (db : Db) (txid : Nat)
    (a : AcceptedTransaction) : List Nat :=
  a.transaction.outputs.enum.map
    (fun p => M.outputStatus db.modState { txid := txid, out_idx := p.1 })

/-- `FedimintConsensus::transaction_status`: the accepted record is looked up
first; only when it is absent is the rejected record consulted. -/
def transaction_status (M : Modules) (db : Db) (txid : Nat) :
    Option TransactionStatus :=
  match alGet db.accepted txid with
  | some a =>
      some (TransactionStatus.Accepted a.epoch (statusOutputs M db txid a))
  | none =>
      match alGet db.rejected txid with
      | some msg => some (TransactionStatus.Rejected msg)
      | none => none

/-! ## submit_transaction -/

/-- Per-input validation loop of `submit_transaction`: for each input a
single-input verification cache is built and `validate_input` is called;
public keys and amounts are accumulated; the first module error aborts,
tagged with the tx hash. -/
def validateInputsGo (M : Modules) (h : Nat) (mdb : ModDb) :
    List Input → FundingVerifier → List Nat →
    Except TransactionSubmissionError (FundingVerifier × List Nat)
  | [], fv, pks => Except.ok (fv, pks)
  | i :: rest, fv, pks =>
      match M.validateInput (some (M.buildCache i.moduleKey [i])) mdb i with
      | Except.error e =>
          Except.error (TransactionSubmissionError.ModuleError h e)
      | Except.ok meta =>
          validateInputsGo M h mdb rest (fv.add_input meta.amount)
            (pks ++ meta.pukKeys)

/-- Per-output validation loop of `submit_transaction`. -/
def validateOutputsGo (M : Modules) (h : Nat) (mdb : ModDb) :
    List Output → FundingVerifier →
    Except TransactionSubmissionError FundingVerifier
  | [], fv => Except.ok fv
  | o :: rest, fv =>
      match M.validateOutput mdb o with
      | Except.error e =>
          Except.error (TransactionSubmissionError.ModuleError h e)
      | Except.ok amount => validateOutputsGo M h mdb rest (fv.add_output amount)

/-- The validation part of `submit_transaction` (inputs, signature, outputs,
funding), reading the snapshot `mdb` of the module subspace. -/
def validateTx (M : Modules) (mdb : ModDb) (tx : Transaction) :
    Except TransactionSubmissionError Unit :=
  match validateInputsGo M tx.txHash mdb tx.inputs FundingVerifier.default [] with
  | Except.error e => Except.error e
  | Except.ok (fv, pks) =>
      if M.sigOk tx pks then
        match validateOutputsGo M tx.txHash mdb tx.outputs fv with
        | Except.error e => Except.error e
        | Except.ok fv2 =>
            match fv2.verify_funding with
            | Except.error e =>
                Except.error (TransactionSubmissionError.TransactionError e)
            | Except.ok _ => Except.ok ()
      else
        Except.error (TransactionSubmissionError.TransactionError
          TransactionError.InvalidSignature)

/-- Result of `submit_transaction`. `panicked` models a process abort: the
commit result is consumed by `.expect("DB Error")` in the source, so a failed
commit panics. The commit outcome of the optimistic store (conflict or not)
is passed in as `commitConflict`. -/
inductive SubmitResult where
  | ok (db : Db)
  | err (e : TransactionSubmissionError)
  | panicked
deriving DecidableEq

/-- `FedimintConsensus::submit_transaction`: return `Ok` immediately when the
tx hash already has a status; otherwise validate against a fresh snapshot,
insert the `ProposedTransactionKey` entry and commit, panicking on a commit
failure. -/
def submit_transaction (M : Modules) (db : Db) (tx : Transaction)
    (commitConflict : Bool) : SubmitResult :=
  if (transaction_status M db tx.txHash).isSome then
    SubmitResult.ok db
  else
    match validateTx M db.modState tx with
    | Except.error e => SubmitResult.err e
    | Except.ok _ =>
        let db2 := { db with proposed := alInsert db.proposed tx.txHash tx }
        if commitConflict then SubmitResult.panicked else SubmitResult.ok db2

/-! ## Consensus outcomes and the epoch processor -/

/-- `ConsensusOutcome`: the BFT batch for one epoch, an ordered map from peer
id to that peer's contributed items. -/
structure ConsensusOutcome where
  epoch : Nat
  contributions : List (Nat × List ConsensusItem)
deriving DecidableEq

/-- Flatten the contributions into `(peer, item)` pairs in delivery order
(the `flat_map` in `process_consensus_outcome`). -/
def flattenContributions (contributions : List (Nat × List ConsensusItem)) :
    List (Nat × ConsensusItem) :=
  (contributions.map (fun pc => pc.2.map (fun ci => (pc.1, ci)))).flatten

/-- The `Transaction` items of the batch in delivery order
(`unzip_consensus_item`). -/
def transactionItems (o : ConsensusOutcome) : List (Nat × Transaction) :=
  (flattenContributions o.contributions).filterMap
    (fun pc => match pc.2 with
      | ConsensusItem.transaction tx => some (pc.1, tx)
      | _ => none)

/-- The module consensus items of the batch in delivery order. -/
def moduleItems (o : ConsensusOutcome) : List (Nat × ModuleCI) :=
  (flattenContributions o.contributions).filterMap
    (fun pc => match pc.2 with
      | ConsensusItem.moduleItem m => some (pc.1, m)
      | _ => none)

/-- The `EpochInfo` signature shares of an item list, as `(peer, share)`. -/
def epochInfoItems (items : List (Nat × List ConsensusItem)) : List (Nat × Nat) :=
  (flattenContributions items).filterMap
    (fun pc => match pc.2 with
      | ConsensusItem.epochInfo s => some (pc.1, s)
      | _ => none)

/-- Key list with duplicates dropped, keeping first occurrences. -/
def dedupKeys : List Nat → List Nat
  | [] => []
  | k :: rest => k :: (dedupKeys rest).filter (fun x => x != k)

/-- Group module consensus items by their module key
(`into_group_map_by`). -/
def groupByModuleKey (l : List (Nat × ModuleCI)) :
    List (Nat × List (Nat × ModuleCI)) :=
  (dedupKeys (l.map (fun pc => pc.2.moduleKey))).map
    (fun k => (k, l.filter (fun pc => pc.2.moduleKey == k)))

/-- Group the inputs of a transaction batch by module key. -/
def groupInputsByKey (ins : List Input) : List (Nat × List Input) :=
  (dedupKeys (ins.map Input.moduleKey)).map
    (fun k => (k, ins.filter (fun i => i.moduleKey == k)))

/-- `build_verification_caches`: one shared cache per module, built from the
union of all inputs in the batch. -/
def build_verification_caches (M : Modules) (txs : List Transaction) :
    List (Nat × Nat) :=
  (groupInputsByKey ((txs.map Transaction.inputs).flatten)).map
    (fun g => (g.1, M.buildCache g.1 g.2))

/-- A database transaction handle at the consensus layer: the current state
(snapshot plus own uncommitted writes) and the savepoint stack.
`Database::begin_transaction` sets an initial savepoint (see
`RocksDb::begin_transaction`). -/
structure DbTx where
  current : Db
  savepoints : List Db
deriving DecidableEq

def DbTx.set_tx_savepoint (t : DbTx) : DbTx :=
  { t with savepoints := t.current :: t.savepoints }

/-- `rollback_tx_to_savepoint`: restore and pop the most recent savepoint;
with an empty savepoint stack it is a no-op that warns (the `Bool`). -/
def DbTx.rollback_tx_to_savepoint (t : DbTx) : DbTx × Bool :=
  match t.savepoints with
  | sp :: rest => ({ current := sp, savepoints := rest }, false)
  | [] => (t, true)

def Db.begin_transaction (db : Db) : DbTx :=
  DbTx.set_tx_savepoint { current := db, savepoints := [] }

/-- Input loop of `process_transaction`: `apply_input` with the shared cache
of the input's module, accumulating amounts and public keys. -/
def applyInputsGo (M : Modules) (caches : List (Nat × Nat)) (h : Nat) :
    List Input → ModDb → FundingVerifier → List Nat →
    Except TransactionSubmissionError (ModDb × FundingVerifier × List Nat)
  | [], mdb, fv, pks => Except.ok (mdb, fv, pks)
  | i :: rest, mdb, fv, pks =>
      match M.applyInput (alGet caches i.moduleKey) mdb i with
      | Except.error e =>
          Except.error (TransactionSubmissionError.ModuleError h e)
      | Except.ok (meta, mdb2) =>
          applyInputsGo M caches h rest mdb2 (fv.add_input meta.amount)
            (pks ++ meta.pukKeys)

/-- Output loop of `process_transaction`: `apply_output` with out_points
`(tx_hash, idx)` for `idx = 0..n` in declaration order. -/
def applyOutputsGo (M : Modules) (h : Nat) :
    Nat → List Output → ModDb → FundingVerifier →
    Except TransactionSubmissionError (ModDb × FundingVerifier)
  | _, [], mdb, fv => Except.ok (mdb, fv)
  | idx, o :: rest, mdb, fv =>
      match M.applyOutput mdb o { txid := h, out_idx := idx } with
      | Except.error e =>
          Except.error (TransactionSubmissionError.ModuleError h e)
      | Except.ok (amount, mdb2) =>
          applyOutputsGo M h (idx + 1) rest mdb2 (fv.add_output amount)

/-- `FedimintConsensus::process_transaction`: apply all inputs, verify the
signature against the collected public keys, apply all outputs, then enforce
funding balance; returns the mutated module subspace. -/
def process_transaction (M : Modules) (caches : List (Nat × Nat)) (mdb : ModDb)
    (tx : Transaction) : Except TransactionSubmissionError ModDb :=
  match applyInputsGo M caches tx.txHash tx.inputs mdb FundingVerifier.default [] with
  | Except.error e => Except.error e
  | Except.ok (mdb1, fv, pks) =>
      if M.sigOk tx pks then
        match applyOutputsGo M tx.txHash 0 tx.outputs mdb1 fv with
        | Except.error e => Except.error e
        | Except.ok (mdb2, fv2) =>
            match fv2.verify_funding with
            | Except.error e =>
                Except.error (TransactionSubmissionError.TransactionError e)
            | Except.ok _ => Except.ok mdb2
      else
        Except.error (TransactionSubmissionError.TransactionError
          TransactionError.InvalidSignature)

/-- One iteration of the phase-B loop: remove the `ProposedTransactionKey`
entry, set a savepoint, skip when already accepted (replay), otherwise apply
the transaction and either record acceptance or roll back to the savepoint
and record the rejection with the debug-formatted error. -/
def processTxStep (M : Modules) (caches : List (Nat × Nat)) (epoch : Nat)
    (t : DbTx) (tx : Transaction) : DbTx :=
  let h := tx.txHash
  let t1 : DbTx :=
    { t with current := { t.current with proposed := alRemove t.current.proposed h } }
  let t2 := t1.set_tx_savepoint
  if (alGet t2.current.accepted h).isSome then
    t2
  else
    match process_transaction M caches t2.current.modState tx with
    | Except.ok mdb2 =>
        { t2 with current := { t2.current with
            modState := mdb2
            accepted := alInsert t2.current.accepted h
              { epoch := epoch, transaction := tx } } }
    | Except.error e =>
        let t3 := (t2.rollback_tx_to_savepoint).1
        { t3 with current := { t3.current with
            rejected := alInsert t3.current.rejected h (debugFormat e) } }

/-- Phase B of `process_consensus_outcome`: one fresh dbtx, shared
verification caches built from the whole batch, every transaction processed
in delivery order, then commit. -/
def phaseB (M : Modules) (epoch : Nat) (db : Db)
    (txs : List (Nat × Transaction)) : Db :=
  let caches := build_verification_caches M (txs.map Prod.snd)
  (txs.foldl (fun t ptx => processTxStep M caches epoch t ptx.2)
    db.begin_transaction).current

/-- Phase A: group the batch's module consensus items by module key and run
each module's `begin_consensus_epoch`; modules write only through their
module-prefixed view, so only the module subspace changes. -/
def phaseA (M : Modules) (db : Db) (mcis : List (Nat × ModuleCI)) : Db :=
  let mdb2 :=
    (groupByModuleKey mcis).foldl (fun mdb g => M.beginEpoch g.1 mdb g.2) db.modState
  { db with modState := mdb2 }

/-- Federation epoch-signing configuration (`cfg.epoch_pk_set` and threshold),
abstracted: `shareValid peer share hash` models verifying one peer's
signature share against a hash under the epoch public-key set, `aggregate`
models threshold aggregation of the valid shares. -/
structure EpochConfig where
  threshold : Nat
  shareValid : Nat → Nat → Nat → Bool
  aggregate : List (Nat × Nat) → Nat

/-- Stand-in encoding of a consensus item, for the abstracted digest. -/
def encCI : ConsensusItem → Nat
  | ConsensusItem.epochInfo s => Nat.pair 0 s
  | ConsensusItem.transaction tx => Nat.pair 1 tx.txHash
  | ConsensusItem.moduleItem m => Nat.pair 2 (Nat.pair m.moduleKey m.payload)

/-- Stand-in for the consensus encoding of an outcome. -/
def encodeOutcome (epoch : Nat) (items : List (Nat × List ConsensusItem)) : Nat :=
  Nat.pair epoch (encList (fun pc => Nat.pair pc.1 (encList encCI pc.2)) items)

/-- Modelled from the spec: `EpochHistory::new` (in fedimint-core `epoch.rs`,
not under `src/`): `previous_hash` is the previous entry's hash, or the
all-zero hash on a fresh chain; `hash = H(encode(outcome_n) || hash_(n-1))`
with the digest abstracted by `Nat.pair`; `last_signature = None`. -/
def EpochHistory.new (epoch : Nat)
    (contributions : List (Nat × List ConsensusItem))
    (prev : Option EpochHistory) : EpochHistory :=
  let ph := match prev with
    | some p => p.hash
    | none => 0
  { epoch := epoch
    items := contributions
    previous_hash := ph
    hash := Nat.pair (encodeOutcome epoch contributions) ph
    last_signature := none }

inductive EpochVerifyError where
  | NotEnoughValidSigShares (contributing : List Nat)
deriving DecidableEq

/-- The signature shares of an item list that verify against `hash`. -/
def validShares (cfg : EpochConfig) (items : List (Nat × List ConsensusItem))
    (hash : Nat) : List (Nat × Nat) :=
  (epochInfoItems items).filter (fun ps => cfg.shareValid ps.1 ps.2 hash)

/-- The distinct peers whose shares verify against `hash`. -/
def contributingPeers (cfg : EpochConfig)
    (items : List (Nat × List ConsensusItem)) (hash : Nat) : List Nat :=
  dedupKeys ((validShares cfg items hash).map Prod.fst)

/-- Modelled from the spec: `add_sig_to_prev` (fedimint-core `epoch.rs`, not
under `src/`): the `EpochInfo` shares in the current entry's contributions
are verified against the previous entry's hash; with at least `threshold`
distinct valid contributors the aggregate signature is attached to the
previous entry, otherwise the valid contributors are reported in
`NotEnoughValidSigShares`. -/
def add_sig_to_prev (cfg : EpochConfig) (current prev : EpochHistory) :
    Except EpochVerifyError EpochHistory :=
  let valid := validShares cfg current.items prev.hash
  let contributing := dedupKeys (valid.map Prod.fst)
  if cfg.threshold ≤ contributing.length then
    Except.ok { prev with last_signature := some (cfg.aggregate valid) }
  else
    Except.error (EpochVerifyError.NotEnoughValidSigShares contributing)

/-- `FedimintConsensus::save_epoch_history`: read the previous entry from the
committed state, build this epoch's entry, try to attach the aggregated
signature to the previous entry (collecting the non-contributing peers to
drop on failure), then point `LastEpochKey` at this epoch and insert the new
entry. Returns the updated dbtx state and the peers to drop. -/
def save_epoch_history (cfg : EpochConfig) (o : ConsensusOutcome)
    (committed : Db) (dbtx : Db) : Db × List Nat :=
  let prevKey := o.epoch - 1
  let peers := o.contributions.map Prod.fst
  let maybePrev := alGet committed.epochs prevKey
  let current := EpochHistory.new o.epoch o.contributions maybePrev
  let step : Db × List Nat :=
    match maybePrev with
    | some prev =>
        match add_sig_to_prev cfg current prev with
        | Except.ok prev2 =>
            ({ dbtx with epochs := alInsert dbtx.epochs prevKey prev2 }, [])
        | Except.error (EpochVerifyError.NotEnoughValidSigShares contributing) =>
            (dbtx, peers.filter (fun p => !(contributing.contains p)))
    | none => (dbtx, [])
  let db1 := { step.1 with lastEpoch := some current.epoch }
  ({ db1 with epochs := alInsert db1.epochs current.epoch current }, step.2)

/-- Phase C: one fresh dbtx; persist the epoch history (possibly signing the
previous epoch), run each module's `end_consensus_epoch` collecting further
peers to drop, persist every drop peer, commit. -/
def phaseC (cfg : EpochConfig) (M : Modules) (o : ConsensusOutcome) (db : Db) : Db :=
  let epochPeers := dedupKeys (o.contributions.map Prod.fst)
  let step := save_epoch_history cfg o db db
  let modStep := M.endEpoch epochPeers step.1.modState
  let db2 := { step.1 with modState := modStep.2 }
  let dp2 := (step.2 ++ modStep.1).foldl (fun dp p => alInsert dp p ()) db2.dropPeers
  { db2 with dropPeers := dp2 }

/-- `FedimintConsensus::process_consensus_outcome`: phases A (begin epoch),
B (transactions) and C (end epoch and epoch history), each in its own
committed database transaction. Phase D (the audit) writes nothing and is
omitted. -/
def process_consensus_outcome (cfg : EpochConfig) (M : Modules) (db : Db)
    (o : ConsensusOutcome) : Db :=
  let db1 := phaseA M db (moduleItems o)
  let db2 := phaseB M o.epoch db1 (transactionItems o)
  phaseC cfg M o db2

/-- A sequence of outcomes delivered by the BFT layer, applied in order. -/
def processOutcomes (cfg : EpochConfig) (M : Modules) (db : Db)
    (outcomes : List ConsensusOutcome) : Db :=
  outcomes.foldl (process_consensus_outcome cfg M) db

/-- The epoch-history invariant after epochs `0 .. k-1` have been processed:
exactly the entries `0 .. k-1` exist, `LastEpochKey` points at `k-1` (the
highest entry present), entry `0` chains from the all-zero hash and every
entry `j+1` chains from entry `j`'s hash. -/
def EpochChain (k : Nat) (db : Db) : Prop :=
  (∀ m, (alGet db.epochs m).isSome ↔ m < k) ∧
  db.lastEpoch = some (k - 1) ∧
  (∀ e, alGet db.epochs 0 = some e → e.previous_hash = 0) ∧
  (∀ j e p, alGet db.epochs (j + 1) = some e → alGet db.epochs j = some p →
    e.previous_hash = p.hash)

/-! ## The RocksDB transaction layer (`fedimint-rocksdb/src/lib.rs`) -/

abbrev RawDb := List (Nat × Nat)

/-- `RocksDbTransaction`: the transaction's current state plus RocksDB's
savepoint stack (`SetSavePoint` pushes; `RollbackToSavePoint` restores and
removes the most recent savepoint, returning an error status when the stack
is empty). -/
structure RocksDbTransaction where
  current : RawDb
  savepoints : List RawDb
deriving DecidableEq

def RocksDbTransaction.raw_insert_bytes (t : RocksDbTransaction) (k v : Nat) :
    Option Nat × RocksDbTransaction :=
  (alGet t.current k, { t with current := alInsert t.current k v })

def RocksDbTransaction.set_tx_savepoint (t : RocksDbTransaction) :
    RocksDbTransaction :=
  { t with savepoints := t.current :: t.savepoints }

/-- `rollback_tx_to_savepoint`: roll back to (and pop) the most recent
savepoint; when none is set, warn and do nothing (the `Bool` is the
warning). -/
def RocksDbTransaction.rollback_tx_to_savepoint (t : RocksDbTransaction) :
    RocksDbTransaction × Bool :=
  match t.savepoints with
  | sp :: rest => ({ current := sp, savepoints := rest }, false)
  | [] => (t, true)

/-- `RocksDb::begin_transaction`: open a snapshot transaction and immediately
set a savepoint. -/
def RocksDb.begin_transaction (db : RawDb) : RocksDbTransaction :=
  RocksDbTransaction.set_tx_savepoint { current := db, savepoints := [] }

/-! ## The module interconnect (`consensus/interconnect.rs`) -/

structure ApiError where
  code : Int
  message : String
deriving DecidableEq

def ApiError.not_found (m : String) : ApiError := { code := 404, message := m }

structure ApiEndpoint where
  path : String
  handler : Db → Nat → Except ApiError Nat

structure ApiModule where
  api_base_name : String
  endpoints : List ApiEndpoint

/-- Result of an interconnect call; `panicked` models the `panic!` branch. -/
inductive CallResult where
  | ok (v : Nat)
  | apiError (e : ApiError)
  | panicked
deriving DecidableEq

/-- `FedimintInterconnect::call`: scan the registered modules for the first
whose `api_base_name` matches; look up the endpoint by path
(`ApiError::not_found("Method not found")` when missing) and run its handler
on the same dbtx; panic when no module name matches. -/
def interconnect_call (modules : List ApiModule) (db : Db)
    (module_name path : String) (data : Nat) : CallResult :=
  match modules.find? (fun m => m.api_base_name == module_name) with
  | some m =>
      match m.endpoints.find? (fun ep => ep.path == path) with
      | some ep =>
          match ep.handler db data with
          | Except.ok v => CallResult.ok v
          | Except.error e => CallResult.apiError e
      | none => CallResult.apiError (ApiError.not_found "Method not found")
  | none => CallResult.panicked

/-! ## Shared concrete instances used by witnesses and counterexamples -/

/-- A trivial module set: every input/output validates and applies with
amount 0 and fee 0, signatures always verify. -/
def M0 : Modules :=
  { buildCache := fun _ _ => 0
    validateInput := fun _ _ _ =>
      Except.ok { amount := { amount := 0, fee := 0 }, pukKeys := [] }
    applyInput := fun _ mdb _ =>
      Except.ok ({ amount := { amount := 0, fee := 0 }, pukKeys := [] }, mdb)
    validateOutput := fun _ _ => Except.ok { amount := 0, fee := 0 }
    applyOutput := fun mdb _ _ => Except.ok ({ amount := 0, fee := 0 }, mdb)
    beginEpoch := fun _ mdb _ => mdb
    endEpoch := fun _ mdb => ([], mdb)
    outputStatus := fun _ _ => 0
    sigOk := fun _ _ => true }

/-- A transaction with no inputs and no outputs: vacuously valid under `M0`
(funding `0 = 0 + 0`, signature accepted). -/
def tx7 : Transaction := { inputs := [], outputs := [], signature := 0 }

/-- A database in which `tx7` is already decided (accepted at epoch 1). -/
def dbDecided : Db :=
  { Db.fresh with accepted := [(tx7.txHash, { epoch := 1, transaction := tx7 })] }

/-- A database holding both an accepted and a rejected record for key
`tx7.txHash`. -/
def dbBoth : Db :=
  { Db.fresh with
    accepted := [(tx7.txHash, { epoch := 1, transaction := tx7 })]
    rejected := [(tx7.txHash, "InvalidSignature")] }

/-- `Db.fresh` after one successful submission of `tx7`. -/
def dbAfterSubmit : Db :=
  { Db.fresh with proposed := alInsert Db.fresh.proposed tx7.txHash tx7 }

/-- A module whose `apply_input`/`validate_input` succeed iff flag key `0` is
set to `1` in the module subspace; its consensus items set that flag in
`begin_consensus_epoch`. Outputs always succeed with zero amount, signatures
always verify. -/
def M1 : Modules :=
  { buildCache := fun _ _ => 0
    validateInput := fun _ mdb _ =>
      if alGet mdb 0 = some 1 then
        Except.ok { amount := { amount := 0, fee := 0 }, pukKeys := [] }
      else Except.error "input not yet spendable"
    applyInput := fun _ mdb _ =>
      if alGet mdb 0 = some 1 then
        Except.ok ({ amount := { amount := 0, fee := 0 }, pukKeys := [] }, mdb)
      else Except.error "input not yet spendable"
    validateOutput := fun _ _ => Except.ok { amount := 0, fee := 0 }
    applyOutput := fun mdb _ _ => Except.ok ({ amount := 0, fee := 0 }, mdb)
    beginEpoch := fun _ mdb _ => alInsert mdb 0 1
    endEpoch := fun _ mdb => ([], mdb)
    outputStatus := fun _ _ => 0
    sigOk := fun _ _ => true }

/-- A single-input transaction of module `5`, rejected by `M1` until the flag
is set. -/
def tx1 : Transaction :=
  { inputs := [{ moduleKey := 5, data := 0 }], outputs := [], signature := 0 }

/-- Epoch 0 batch: one peer contributes `tx1` (which `M1` rejects on a fresh
module subspace). -/
def outcome0 : ConsensusOutcome :=
  { epoch := 0, contributions := [(0, [ConsensusItem.transaction tx1])] }

/-- Epoch 1 batch: the same peer contributes a module item (setting the flag
in phase A) and redelivers `tx1`, which now succeeds. -/
def outcome1 : ConsensusOutcome :=
  { epoch := 1
    contributions :=
      [(0, [ConsensusItem.moduleItem { moduleKey := 5, payload := 0 },
            ConsensusItem.transaction tx1])] }

/-- A trivial epoch-signing configuration with threshold 1. -/
def cfg0 : EpochConfig :=
  { threshold := 1, shareValid := fun _ _ _ => true, aggregate := fun _ => 0 }

/-- A RocksDB transaction on an empty store with one uncommitted user write
and no user-set savepoint. -/
def t8 : RocksDbTransaction :=
  ((RocksDb.begin_transaction []).raw_insert_bytes 1 2).2

/-- A registered api module named `mint` with a single endpoint `coins`. -/
def apiMod : ApiModule :=
  { api_base_name := "mint"
    endpoints := [{ path := "coins", handler := fun _ d => Except.ok d }] }

/-- An epoch-signing configuration accepting a share equal to the signed
hash, with threshold 1; the aggregate is the number of valid shares. -/
def cfg1 : EpochConfig :=
  { threshold := 1, shareValid := fun _ s h => s == h
    aggregate := fun l => l.length }

/-- Like `cfg1` but with threshold 2, so a single valid share is not
enough. -/
def cfg2 : EpochConfig :=
  { threshold := 2, shareValid := fun _ s h => s == h
    aggregate := fun l => l.length }

/-- The epoch-0 history entry of an empty outcome on a fresh chain. -/
def eh0 : EpochHistory := EpochHistory.new 0 [] none

/-- A database whose epoch chain holds exactly the entry `eh0` for epoch 0. -/
def dbPrev : Db := { Db.fresh with epochs := [(0, eh0)] }

/-- An epoch-1 outcome in which peer 0 contributes a valid signature share
on `eh0.hash` and peer 1 contributes nothing. -/
def outcomeSig : ConsensusOutcome :=
  { epoch := 1
    contributions := [(0, [ConsensusItem.epochInfo eh0.hash]), (1, [])] }

/-- An empty outcome for epoch 0. -/
def oc0 : ConsensusOutcome := { epoch := 0, contributions := [] }

/-- An empty outcome for epoch 1. -/
def oc1 : ConsensusOutcome := { epoch := 1, contributions := [] }

/-! # Theorems -/

theorem alGet_alRemove {α : Type} (l : List (Nat × α)) (k k' : Nat) :
    alGet (alRemove l k) k' = if k' = k then none else alGet l k' := by
  induction l with
  | nil => simp [alRemove, alGet]
  | cons hd tl ih =>
      obtain ⟨k₀, v₀⟩ := hd
      simp only [alRemove]
      by_cases h1 : k = k₀
      · subst h1
        simp only [if_pos rfl]
        by_cases h2 : k' = k
        · subst h2
          simp [ih]
        · simp [alGet, h2, ih]
      · simp only [if_neg h1]
        by_cases h2 : k' = k₀
        · subst h2
          simp [alGet, Ne.symm h1]
        · simp [alGet, h2, ih]

theorem alGet_alInsert {α : Type} (l : List (Nat × α)) (k k' : Nat) (v : α) :
    alGet (alInsert l k v) k' = if k' = k then some v else alGet l k' := by
  by_cases h : k' = k <;> simp [alInsert, alGet, alGet_alRemove, h]

theorem countKey_alRemove {α : Type} (l : List (Nat × α)) (k : Nat) :
    countKey (alRemove l k) k = 0 := by
  induction l with
  | nil => simp [alRemove, countKey]
  | cons hd tl ih =>
      obtain ⟨k₀, v₀⟩ := hd
      by_cases h : k = k₀
      · subst h
        simp [alRemove, ih]
      · simp [alRemove, countKey, h, ih]

theorem countKey_alInsert {α : Type} (l : List (Nat × α)) (k : Nat) (v : α) :
    countKey (alInsert l k v) k = 1 := by
  simp [alInsert, countKey, countKey_alRemove]

theorem foldl_add_input (ins : List TransactionItemAmount) (fv : FundingVerifier) :
    List.foldl FundingVerifier.add_input fv ins =
      { fv with
        input_amount := fv.input_amount + sumAmount ins
        fee_amount := fv.fee_amount + sumFee ins } := by
  induction ins generalizing fv with
  | nil => simp [sumAmount, sumFee]
  | cons hd tl ih =>
      simp only [List.foldl_cons]
      rw [ih]
      simp [FundingVerifier.add_input, sumAmount, sumFee, Nat.add_assoc]

theorem foldl_add_output (outs : List TransactionItemAmount) (fv : FundingVerifier) :
    List.foldl (fun fv oa => FundingVerifier.add_output fv oa) fv outs =
      { fv with
        output_amount := fv.output_amount + sumAmount outs
        fee_amount := fv.fee_amount + sumFee outs } := by
  induction outs generalizing fv with
  | nil => simp [sumAmount, sumFee]
  | cons hd tl ih =>
      simp only [List.foldl_cons]
      rw [ih]
      simp [FundingVerifier.add_output, sumAmount, sumFee, Nat.add_assoc]

/-- C2: accumulating any lists of input and output amount/fee tuples via
`add_input` / `add_output` yields exactly the three component-wise sums;
`verify_funding` succeeds iff `Σ input.amount = Σ output.amount + Σ fees` and
otherwise reports exactly the three accumulated totals; with no inputs and no
outputs all three sums are zero and `verify_funding` succeeds. -/
theorem fundingVerifier_correct (ins outs : List TransactionItemAmount) :
    (accumulateFunding ins outs).input_amount = sumAmount ins ∧
    (accumulateFunding ins outs).output_amount = sumAmount outs ∧
    (accumulateFunding ins outs).fee_amount = sumFee ins + sumFee outs ∧
    (accumulateFunding ins outs).verify_funding =
      (if sumAmount ins = sumAmount outs + (sumFee ins + sumFee outs) then
        Except.ok ()
      else
        Except.error (TransactionError.UnbalancedTransaction (sumAmount ins)
          (sumAmount outs) (sumFee ins + sumFee outs))) ∧
    FundingVerifier.default.verify_funding = Except.ok () := by
  have h : accumulateFunding ins outs =
      { input_amount := sumAmount ins
        output_amount := sumAmount outs
        fee_amount := sumFee ins + sumFee outs } := by
    simp [accumulateFunding, foldl_add_input, foldl_add_output,
      FundingVerifier.default]
  refine ⟨by simp [h], by simp [h], by simp [h], ?_, by
    simp [FundingVerifier.verify_funding, FundingVerifier.default]⟩
  by_cases hb : sumAmount ins = sumAmount outs + (sumFee ins + sumFee outs) <;>
    simp [h, FundingVerifier.verify_funding, hb]

theorem transaction_status_proposed_irrelevant (M : Modules) (db : Db)
    (p : List (Nat × Transaction)) (txid : Nat) :
    transaction_status M { db with proposed := p } txid =
      transaction_status M db txid := rfl

/-- C9: `transaction_status` gives the accepted record precedence: whenever an
accepted record exists the result is `Accepted` with that record's epoch and
output outcomes (regardless of any rejected record); `Rejected` is returned
exactly when no accepted record exists but a rejected one does; `none` is
returned iff neither record exists. -/
theorem transaction_status_precedence (M : Modules) (db : Db) (txid : Nat) :
    (∀ a, alGet db.accepted txid = some a →
      transaction_status M db txid =
        some (TransactionStatus.Accepted a.epoch (statusOutputs M db txid a))) ∧
    (alGet db.accepted txid = none → ∀ m, alGet db.rejected txid = some m →
      transaction_status M db txid = some (TransactionStatus.Rejected m)) ∧
    (transaction_status M db txid = none ↔
      alGet db.accepted txid = none ∧ alGet db.rejected txid = none) := by
  refine ⟨?_, ?_, ?_⟩
  · intro a ha
    simp [transaction_status, ha]
  · intro ha m hm
    simp [transaction_status, ha, hm]
  · constructor
    · intro h
      rcases hacc : alGet db.accepted txid with _ | a
      · rcases hrej : alGet db.rejected txid with _ | m
        · exact ⟨rfl, rfl⟩
        · rw [transaction_status, hacc, hrej] at h
          exact absurd h (by simp)
      · rw [transaction_status, hacc] at h
        exact absurd h (by simp)
    · rintro ⟨h1, h2⟩
      simp [transaction_status, h1, h2]

/-- Witness for C9: in a database holding both an accepted and a rejected
record for the same hash, the status is `Accepted`. -/
theorem transaction_status_precedence_witness :
    transaction_status M0 dbBoth tx7.txHash =
      some (TransactionStatus.Accepted 1 (statusOutputs M0 dbBoth tx7.txHash
        { epoch := 1, transaction := tx7 })) :=
  (transaction_status_precedence M0 dbBoth tx7.txHash).1
    { epoch := 1, transaction := tx7 } (by decide)

/-- C7: `submit_transaction` is idempotent. If the tx hash already has a
status, it returns `Ok` with the database unchanged (no validation result is
consulted and no write or commit happens, for any commit outcome). If the
transaction is not yet decided and a submission succeeds, a second submission
also succeeds, re-inserting the same `ProposedTransactionKey` entry, and
exactly one proposed record for the hash is persisted after either
submission. -/
theorem submit_transaction_idempotent (M : Modules) (db : Db) (tx : Transaction) :
    ((transaction_status M db tx.txHash).isSome →
      ∀ c, submit_transaction M db tx c = SubmitResult.ok db) ∧
    (∀ db1, transaction_status M db tx.txHash = none →
      submit_transaction M db tx false = SubmitResult.ok db1 →
      submit_transaction M db1 tx false =
        SubmitResult.ok { db1 with proposed := alInsert db1.proposed tx.txHash tx } ∧
      countKey db1.proposed tx.txHash = 1 ∧
      countKey (alInsert db1.proposed tx.txHash tx) tx.txHash = 1) := by
  constructor
  · intro hs c
    simp [submit_transaction, hs]
  · intro db1 hst hsub
    rw [submit_transaction] at hsub
    rw [hst] at hsub
    simp only [Option.isSome_none, Bool.false_eq_true, if_false] at hsub
    rcases hv : validateTx M db.modState tx with e | u
    · rw [hv] at hsub
      exact absurd hsub (by simp)
    · rw [hv] at hsub
      simp only [if_neg (by simp : ¬(false = true))] at hsub
      have hdb1 : db1 = { db with proposed := alInsert db.proposed tx.txHash tx } := by
        cases hsub
        rfl
      subst hdb1
      refine ⟨?_, ?_, ?_⟩
      · rw [submit_transaction, transaction_status_proposed_irrelevant, hst]
        simp only [Option.isSome_none, Bool.false_eq_true, if_false]
        rw [show ({ db with proposed := alInsert db.proposed tx.txHash tx } : Db).modState
              = db.modState from rfl, hv]
      · exact countKey_alInsert _ _ _
      · exact countKey_alInsert _ _ _

/-- Witness for C7: `tx7` submitted to a database where it is already decided
returns `Ok` untouched even with a conflicting commit; submitted twice to a
fresh database it succeeds both times with one proposed record. -/
theorem submit_transaction_idempotent_witness :
    submit_transaction M0 dbDecided tx7 true = SubmitResult.ok dbDecided ∧
    (submit_transaction M0 dbAfterSubmit tx7 false =
      SubmitResult.ok { dbAfterSubmit with
        proposed := alInsert dbAfterSubmit.proposed tx7.txHash tx7 } ∧
     countKey dbAfterSubmit.proposed tx7.txHash = 1 ∧
     countKey (alInsert dbAfterSubmit.proposed tx7.txHash tx7) tx7.txHash = 1) :=
  ⟨(submit_transaction_idempotent M0 dbDecided tx7).1 (by decide) true,
   (submit_transaction_idempotent M0 Db.fresh tx7).2 dbAfterSubmit
     (by decide) (by decide)⟩

/-- Counterexample for C3: a write conflict on the final commit of
`submit_transaction` does not reach the caller as
`Err(TransactionConflictError)` — the `.expect("DB Error")` aborts the
process. -/
theorem submit_conflict_counterexample :
    submit_transaction M0 Db.fresh tx7 true = SubmitResult.panicked ∧
    submit_transaction M0 Db.fresh tx7 true ≠
      SubmitResult.err TransactionSubmissionError.TransactionConflictError := by
  decide

/-- C3 (amended): when the final commit of `submit_transaction` fails with a
write conflict, the process panics (`.expect("DB Error")`); the error is not
returned to the caller and no internal retry happens. The
`TransactionConflictError` variant exists in the return type but is never
constructed. -/
theorem submit_conflict_panics (M : Modules) (db : Db) (tx : Transaction)
    (hst : transaction_status M db tx.txHash = none)
    (hval : validateTx M db.modState tx = Except.ok ()) :
    submit_transaction M db tx true = SubmitResult.panicked := by
  simp [submit_transaction, hst, hval]

/-- Witness for the amended C3. -/
theorem submit_conflict_panics_witness :
    submit_transaction M0 Db.fresh tx7 true = SubmitResult.panicked :=
  submit_conflict_panics M0 Db.fresh tx7 (by decide) (by decide)

/-- Counterexample for C8: on a transaction whose user never called
`set_tx_savepoint`, `rollback_tx_to_savepoint` is not a no-op and does not
warn — `begin_transaction` itself set a savepoint at transaction start, so
the rollback succeeds and silently discards the uncommitted write. -/
theorem rollback_without_user_savepoint_counterexample :
    t8.current = [(1, 2)] ∧
    RocksDbTransaction.rollback_tx_to_savepoint t8 =
      ({ current := [], savepoints := [] }, false) := by
  decide

/-- C8 (amended): `RocksDb::begin_transaction` sets a savepoint at
transaction start, so a rollback on a transaction whose user never set a
savepoint rolls back to the transaction's beginning — discarding all
uncommitted writes — without a warning; each rollback consumes (pops) the
savepoint it restores rather than retaining it, and a rollback with an empty
savepoint stack is the warned no-op. -/
theorem rollback_savepoint_semantics (db : RawDb) (k v : Nat) :
    (RocksDbTransaction.rollback_tx_to_savepoint
        ((RocksDb.begin_transaction db).raw_insert_bytes k v).2 =
      ({ current := db, savepoints := [] }, false)) ∧
    (∀ t : RocksDbTransaction, ∀ sp rest, t.savepoints = sp :: rest →
      RocksDbTransaction.rollback_tx_to_savepoint t =
        ({ current := sp, savepoints := rest }, false)) ∧
    (∀ t : RocksDbTransaction, t.savepoints = [] →
      RocksDbTransaction.rollback_tx_to_savepoint t = (t, true)) := by
  refine ⟨rfl, ?_, ?_⟩
  · intro t sp rest h
    simp [RocksDbTransaction.rollback_tx_to_savepoint, h]
  · intro t h
    simp [RocksDbTransaction.rollback_tx_to_savepoint, h]

/-- Witness for the amended C8. -/
theorem rollback_savepoint_semantics_witness :
    (RocksDbTransaction.rollback_tx_to_savepoint t8 =
      ({ current := [], savepoints := [] }, false)) ∧
    (RocksDbTransaction.rollback_tx_to_savepoint
        { current := [(3, 4)], savepoints := [[(5, 6)]] } =
      ({ current := [(5, 6)], savepoints := [] }, false)) ∧
    (RocksDbTransaction.rollback_tx_to_savepoint
        { current := [(3, 4)], savepoints := [] } =
      ({ current := [(3, 4)], savepoints := [] }, true)) :=
  ⟨(rollback_savepoint_semantics [] 1 2).1,
   (rollback_savepoint_semantics [] 1 2).2.1 _ [(5, 6)] [] rfl,
   (rollback_savepoint_semantics [] 1 2).2.2 _ rfl⟩

/-- C10: an interconnect call whose module name matches no registered
module's `api_base_name` panics instead of returning an error value; the
first matching module with no endpoint of the requested path yields
`ApiError::not_found("Method not found")` without panicking. -/
theorem interconnect_call_behavior (modules : List ApiModule) (db : Db)
    (module_name path : String) (data : Nat) :
    ((∀ m ∈ modules, m.api_base_name ≠ module_name) →
      interconnect_call modules db module_name path data = CallResult.panicked) ∧
    (∀ m, modules.find? (fun m => m.api_base_name == module_name) = some m →
      m.endpoints.find? (fun ep => ep.path == path) = none →
      interconnect_call modules db module_name path data =
        CallResult.apiError (ApiError.not_found "Method not found")) := by
  constructor
  · intro h
    have hn : modules.find? (fun m => m.api_base_name == module_name) = none := by
      rw [List.find?_eq_none]
      intro m hm
      simpa using h m hm
    simp [interconnect_call, hn]
  · intro m hm hp
    simp [interconnect_call, hm, hp]

theorem processTxStep_proposed (M : Modules) (caches : List (Nat × Nat))
    (epoch : Nat) (t : DbTx) (tx : Transaction) :
    (processTxStep M caches epoch t tx).current.proposed =
      alRemove t.current.proposed tx.txHash := by
  by_cases hA : (alGet t.current.accepted tx.txHash).isSome
  · simp [processTxStep, DbTx.set_tx_savepoint, hA]
  · rcases hp : process_transaction M caches t.current.modState tx with e | mdb2
    · simp [processTxStep, DbTx.set_tx_savepoint, DbTx.rollback_tx_to_savepoint,
        hA, hp]
    · simp [processTxStep, DbTx.set_tx_savepoint, hA, hp]

theorem processTxStep_proposed_none (M : Modules) (caches : List (Nat × Nat))
    (epoch : Nat) (t : DbTx) (tx : Transaction) (h : Nat)
    (hp : alGet t.current.proposed h = none) :
    alGet (processTxStep M caches epoch t tx).current.proposed h = none := by
  rw [processTxStep_proposed, alGet_alRemove]
  by_cases hh : h = tx.txHash <;> simp [hh, hp]

theorem processTxStep_proposed_self (M : Modules) (caches : List (Nat × Nat))
    (epoch : Nat) (t : DbTx) (tx : Transaction) :
    alGet (processTxStep M caches epoch t tx).current.proposed tx.txHash = none := by
  rw [processTxStep_proposed, alGet_alRemove]
  simp

theorem processTxStep_decided (M : Modules) (caches : List (Nat × Nat))
    (epoch : Nat) (t : DbTx) (tx : Transaction) :
    (alGet (processTxStep M caches epoch t tx).current.accepted tx.txHash).isSome ∨
    (alGet (processTxStep M caches epoch t tx).current.rejected tx.txHash).isSome := by
  by_cases hA : (alGet t.current.accepted tx.txHash).isSome
  · left
    simp [processTxStep, DbTx.set_tx_savepoint, hA]
  · rcases hp : process_transaction M caches t.current.modState tx with e | mdb2
    · right
      simp [processTxStep, DbTx.set_tx_savepoint, DbTx.rollback_tx_to_savepoint,
        hA, hp, alGet_alInsert]
    · left
      simp [processTxStep, DbTx.set_tx_savepoint, hA, hp, alGet_alInsert]

theorem processTxStep_mono (M : Modules) (caches : List (Nat × Nat))
    (epoch : Nat) (t : DbTx) (tx : Transaction) (h : Nat)
    (hd : (alGet t.current.accepted h).isSome ∨ (alGet t.current.rejected h).isSome) :
    (alGet (processTxStep M caches epoch t tx).current.accepted h).isSome ∨
    (alGet (processTxStep M caches epoch t tx).current.rejected h).isSome := by
  by_cases hA : (alGet t.current.accepted tx.txHash).isSome
  · simpa [processTxStep, DbTx.set_tx_savepoint, hA] using hd
  · rcases hp : process_transaction M caches t.current.modState tx with e | mdb2
    · rcases hd with hd | hd
      · left
        simpa [processTxStep, DbTx.set_tx_savepoint, DbTx.rollback_tx_to_savepoint,
          hA, hp] using hd
      · right
        by_cases hh : h = tx.txHash <;>
          simp [processTxStep, DbTx.set_tx_savepoint, DbTx.rollback_tx_to_savepoint,
            hA, hp, alGet_alInsert, hh, hd]
    · rcases hd with hd | hd
      · left
        by_cases hh : h = tx.txHash <;>
          simp [processTxStep, DbTx.set_tx_savepoint, hA, hp, alGet_alInsert, hh, hd]
      · right
        simpa [processTxStep, DbTx.set_tx_savepoint, hA, hp] using hd

theorem foldB_preserves (M : Modules) (caches : List (Nat × Nat)) (epoch : Nat)
    (txs : List (Nat × Transaction)) (t : DbTx) (h : Nat)
    (hp : alGet t.current.proposed h = none)
    (hd : (alGet t.current.accepted h).isSome ∨ (alGet t.current.rejected h).isSome) :
    alGet ((txs.foldl (fun t p => processTxStep M caches epoch t p.2) t).current.proposed) h
      = none ∧
    ((alGet ((txs.foldl (fun t p => processTxStep M caches epoch t p.2) t).current.accepted) h).isSome ∨
     (alGet ((txs.foldl (fun t p => processTxStep M caches epoch t p.2) t).current.rejected) h).isSome) := by
  induction txs generalizing t with
  | nil => exact ⟨hp, hd⟩
  | cons hd0 tl ih =>
      simp only [List.foldl_cons]
      exact ih _ (processTxStep_proposed_none M caches epoch t hd0.2 h hp)
        (processTxStep_mono M caches epoch t hd0.2 h hd)

theorem foldB_batch (M : Modules) (caches : List (Nat × Nat)) (epoch : Nat)
    (txs : List (Nat × Transaction)) (t : DbTx) :
    ∀ ptx ∈ txs,
      alGet ((txs.foldl (fun t p => processTxStep M caches epoch t p.2) t).current.proposed)
        ptx.2.txHash = none ∧
      ((alGet ((txs.foldl (fun t p => processTxStep M caches epoch t p.2) t).current.accepted)
          ptx.2.txHash).isSome ∨
       (alGet ((txs.foldl (fun t p => processTxStep M caches epoch t p.2) t).current.rejected)
          ptx.2.txHash).isSome) := by
  induction txs generalizing t with
  | nil =>
      intro ptx hmem
      simp at hmem
  | cons hd0 tl ih =>
      intro ptx hmem
      simp only [List.foldl_cons]
      rcases List.mem_cons.mp hmem with hm | hm
      · subst hm
        exact foldB_preserves M caches epoch tl _ _
          (processTxStep_proposed_self M caches epoch t ptx.2)
          (processTxStep_decided M caches epoch t ptx.2)
      · exact ih _ ptx hm

/-- C1: in phase B, a transaction whose processing fails is rolled back to
the savepoint set for that transaction — undoing its writes but not the
preceding removal of its `ProposedTransactionKey` entry — and a
`RejectedTransactionKey` entry holding the debug-formatted error is
inserted; the loop then continues, so after phase B every transaction of the
batch has no proposed entry and carries an accepted or a rejected record:
no per-transaction failure aborts the epoch. -/
theorem phaseB_rejects_and_continues (M : Modules) (caches : List (Nat × Nat))
    (epoch : Nat) (t : DbTx) (tx : Transaction)
    (e : TransactionSubmissionError) (db : Db) (txs : List (Nat × Transaction))
    (hacc : alGet t.current.accepted tx.txHash = none)
    (herr : process_transaction M caches t.current.modState tx = Except.error e) :
    processTxStep M caches epoch t tx =
      { current := { t.current with
          proposed := alRemove t.current.proposed tx.txHash
          rejected := alInsert t.current.rejected tx.txHash (debugFormat e) }
        savepoints := t.savepoints } ∧
    (∀ ptx ∈ txs,
      alGet (phaseB M epoch db txs).proposed ptx.2.txHash = none ∧
      ((alGet (phaseB M epoch db txs).accepted ptx.2.txHash).isSome ∨
       (alGet (phaseB M epoch db txs).rejected ptx.2.txHash).isSome)) := by
  constructor
  · have hA : ¬(alGet t.current.accepted tx.txHash).isSome = true := by simp [hacc]
    simp [processTxStep, DbTx.set_tx_savepoint, DbTx.rollback_tx_to_savepoint,
      hA, herr]
  · intro ptx hmem
    have hfold := foldB_batch M (build_verification_caches M (txs.map Prod.snd))
      epoch txs db.begin_transaction ptx hmem
    simpa [phaseB] using hfold

/-- Witness for C1: under `M1` on a fresh database, `tx1` fails to apply, so
phase B leaves it with no proposed entry and a rejection record. -/
theorem phaseB_rejects_and_continues_witness :
    alGet (phaseB M1 0 Db.fresh [(0, tx1)]).proposed tx1.txHash = none ∧
    ((alGet (phaseB M1 0 Db.fresh [(0, tx1)]).accepted tx1.txHash).isSome ∨
     (alGet (phaseB M1 0 Db.fresh [(0, tx1)]).rejected tx1.txHash).isSome) :=
  (phaseB_rejects_and_continues M1 [] 0 Db.fresh.begin_transaction tx1
      (TransactionSubmissionError.ModuleError tx1.txHash "input not yet spendable")
      Db.fresh [(0, tx1)] (by decide) (by decide)).2 (0, tx1) (by simp)

theorem phaseA_fields (M : Modules) (db : Db) (l : List (Nat × ModuleCI)) :
    (phaseA M db l).accepted = db.accepted ∧
    (phaseA M db l).rejected = db.rejected ∧
    (phaseA M db l).proposed = db.proposed ∧
    (phaseA M db l).epochs = db.epochs ∧
    (phaseA M db l).lastEpoch = db.lastEpoch ∧
    (phaseA M db l).dropPeers = db.dropPeers :=
  ⟨rfl, rfl, rfl, rfl, rfl, rfl⟩

theorem processTxStep_fields (M : Modules) (caches : List (Nat × Nat))
    (epoch : Nat) (t : DbTx) (tx : Transaction) :
    (processTxStep M caches epoch t tx).current.epochs = t.current.epochs ∧
    (processTxStep M caches epoch t tx).current.lastEpoch = t.current.lastEpoch ∧
    (processTxStep M caches epoch t tx).current.dropPeers = t.current.dropPeers := by
  by_cases hA : (alGet t.current.accepted tx.txHash).isSome
  · simp [processTxStep, DbTx.set_tx_savepoint, hA]
  · rcases hp : process_transaction M caches t.current.modState tx with e | mdb2
    · simp [processTxStep, DbTx.set_tx_savepoint, DbTx.rollback_tx_to_savepoint,
        hA, hp]
    · simp [processTxStep, DbTx.set_tx_savepoint, hA, hp]

theorem foldB_fields (M : Modules) (caches : List (Nat × Nat)) (epoch : Nat)
    (txs : List (Nat × Transaction)) (t : DbTx) :
    ((txs.foldl (fun t p => processTxStep M caches epoch t p.2) t).current.epochs
      = t.current.epochs) ∧
    ((txs.foldl (fun t p => processTxStep M caches epoch t p.2) t).current.lastEpoch
      = t.current.lastEpoch) ∧
    ((txs.foldl (fun t p => processTxStep M caches epoch t p.2) t).current.dropPeers
      = t.current.dropPeers) := by
  induction txs generalizing t with
  | nil => exact ⟨rfl, rfl, rfl⟩
  | cons hd0 tl ih =>
      simp only [List.foldl_cons]
      obtain ⟨h1, h2, h3⟩ := ih (processTxStep M caches epoch t hd0.2)
      obtain ⟨g1, g2, g3⟩ := processTxStep_fields M caches epoch t hd0.2
      exact ⟨h1.trans g1, h2.trans g2, h3.trans g3⟩

theorem phaseB_fields (M : Modules) (epoch : Nat) (db : Db)
    (txs : List (Nat × Transaction)) :
    (phaseB M epoch db txs).epochs = db.epochs ∧
    (phaseB M epoch db txs).lastEpoch = db.lastEpoch ∧
    (phaseB M epoch db txs).dropPeers = db.dropPeers := by
  have h := foldB_fields M (build_verification_caches M (txs.map Prod.snd)) epoch
    txs db.begin_transaction
  simpa [phaseB, Db.begin_transaction, DbTx.set_tx_savepoint] using h

theorem phaseB_preserves (M : Modules) (epoch : Nat) (db : Db)
    (txs : List (Nat × Transaction)) (h : Nat)
    (hp : alGet db.proposed h = none)
    (hd : (alGet db.accepted h).isSome ∨ (alGet db.rejected h).isSome) :
    alGet (phaseB M epoch db txs).proposed h = none ∧
    ((alGet (phaseB M epoch db txs).accepted h).isSome ∨
     (alGet (phaseB M epoch db txs).rejected h).isSome) := by
  have hfold := foldB_preserves M (build_verification_caches M (txs.map Prod.snd))
    epoch txs db.begin_transaction h hp hd
  simpa [phaseB] using hfold

theorem save_epoch_history_fields (cfg : EpochConfig) (o : ConsensusOutcome)
    (committed dbtx : Db) :
    ((save_epoch_history cfg o committed dbtx).1).accepted = dbtx.accepted ∧
    ((save_epoch_history cfg o committed dbtx).1).rejected = dbtx.rejected ∧
    ((save_epoch_history cfg o committed dbtx).1).proposed = dbtx.proposed ∧
    ((save_epoch_history cfg o committed dbtx).1).dropPeers = dbtx.dropPeers ∧
    ((save_epoch_history cfg o committed dbtx).1).modState = dbtx.modState := by
  rcases hprev : alGet committed.epochs (o.epoch - 1) with _ | prev
  · simp [save_epoch_history, hprev]
  · rcases hsig : add_sig_to_prev cfg
        (EpochHistory.new o.epoch o.contributions (some prev)) prev with e | prev2
    · rcases e with ⟨contributing⟩
      simp [save_epoch_history, hprev, hsig]
    · simp [save_epoch_history, hprev, hsig]

theorem phaseC_fields (cfg : EpochConfig) (M : Modules) (o : ConsensusOutcome)
    (db : Db) :
    (phaseC cfg M o db).accepted = db.accepted ∧
    (phaseC cfg M o db).rejected = db.rejected ∧
    (phaseC cfg M o db).proposed = db.proposed := by
  obtain ⟨h1, h2, h3, _, _⟩ := save_epoch_history_fields cfg o db db
  simp [phaseC, h1, h2, h3]

theorem pco_preserves (cfg : EpochConfig) (M : Modules) (db : Db)
    (o : ConsensusOutcome) (h : Nat)
    (hp : alGet db.proposed h = none)
    (hd : (alGet db.accepted h).isSome ∨ (alGet db.rejected h).isSome) :
    alGet (process_consensus_outcome cfg M db o).proposed h = none ∧
    ((alGet (process_consensus_outcome cfg M db o).accepted h).isSome ∨
     (alGet (process_consensus_outcome cfg M db o).rejected h).isSome) := by
  obtain ⟨a1, a2, a3, _, _, _⟩ := phaseA_fields M db (moduleItems o)
  have hB := phaseB_preserves M o.epoch (phaseA M db (moduleItems o))
    (transactionItems o) h (by rw [a3]; exact hp)
    (by rw [a1, a2]; exact hd)
  obtain ⟨c1, c2, c3⟩ := phaseC_fields cfg M o
    (phaseB M o.epoch (phaseA M db (moduleItems o)) (transactionItems o))
  refine ⟨?_, ?_⟩
  · rw [process_consensus_outcome, c3]
    exact hB.1
  · rw [process_consensus_outcome, c1, c2]
    exact hB.2

theorem pco_establishes (cfg : EpochConfig) (M : Modules) (db : Db)
    (o : ConsensusOutcome) (p : Nat) (tx : Transaction)
    (htx : (p, tx) ∈ transactionItems o) :
    alGet (process_consensus_outcome cfg M db o).proposed tx.txHash = none ∧
    ((alGet (process_consensus_outcome cfg M db o).accepted tx.txHash).isSome ∨
     (alGet (process_consensus_outcome cfg M db o).rejected tx.txHash).isSome) := by
  have hB := foldB_batch M
    (build_verification_caches M ((transactionItems o).map Prod.snd)) o.epoch
    (transactionItems o) (phaseA M db (moduleItems o)).begin_transaction
    (p, tx) htx
  obtain ⟨c1, c2, c3⟩ := phaseC_fields cfg M o
    (phaseB M o.epoch (phaseA M db (moduleItems o)) (transactionItems o))
  refine ⟨?_, ?_⟩
  · rw [process_consensus_outcome, c3]
    exact hB.1
  · rw [process_consensus_outcome, c1, c2]
    exact hB.2

theorem processOutcomes_preserves (cfg : EpochConfig) (M : Modules)
    (outcomes : List ConsensusOutcome) (db : Db) (h : Nat)
    (hp : alGet db.proposed h = none)
    (hd : (alGet db.accepted h).isSome ∨ (alGet db.rejected h).isSome) :
    alGet (processOutcomes cfg M db outcomes).proposed h = none ∧
    ((alGet (processOutcomes cfg M db outcomes).accepted h).isSome ∨
     (alGet (processOutcomes cfg M db outcomes).rejected h).isSome) := by
  induction outcomes generalizing db with
  | nil => exact ⟨hp, hd⟩
  | cons o tl ih =>
      have hstep := pco_preserves cfg M db o h hp hd
      simpa [processOutcomes, List.foldl_cons] using
        ih (process_consensus_outcome cfg M db o) hstep.1 hstep.2

/-- Counterexample for C4: `tx1` is rejected in epoch 0 (its input is not yet
spendable), redelivered in epoch 1 after a module consensus item makes it
spendable, and accepted — afterwards both an `AcceptedTransactionKey` and a
`RejectedTransactionKey` record are present for its hash. -/
theorem accepted_rejected_coexist_counterexample :
    (alGet (processOutcomes cfg0 M1 Db.fresh [outcome0, outcome1]).accepted
      tx1.txHash).isSome = true ∧
    (alGet (processOutcomes cfg0 M1 Db.fresh [outcome0, outcome1]).rejected
      tx1.txHash).isSome = true := by
  decide

/-- C4 (amended): after any sequence of processed outcomes, every transaction
delivered in one of them has an accepted or a rejected record and no proposed
entry — but not exactly one of the two: both records coexist when a
transaction rejected in an earlier epoch is redelivered and accepted later
(`transaction_status` then reports Accepted). A transaction never delivered
remains only proposed. -/
theorem delivered_tx_decided (cfg : EpochConfig) (M : Modules) (db : Db)
    (outcomes : List ConsensusOutcome) (o : ConsensusOutcome) (p : Nat)
    (tx : Transaction) (ho : o ∈ outcomes) (htx : (p, tx) ∈ transactionItems o) :
    ((alGet (processOutcomes cfg M db outcomes).accepted tx.txHash).isSome ∨
     (alGet (processOutcomes cfg M db outcomes).rejected tx.txHash).isSome) ∧
    alGet (processOutcomes cfg M db outcomes).proposed tx.txHash = none := by
  obtain ⟨s, t, rfl⟩ := List.append_of_mem ho
  have hsplit : processOutcomes cfg M db (s ++ o :: t) =
      processOutcomes cfg M
        (process_consensus_outcome cfg M (processOutcomes cfg M db s) o) t := by
    simp [processOutcomes, List.foldl_append]
  have hest := pco_establishes cfg M (processOutcomes cfg M db s) o p tx htx
  have hrest := processOutcomes_preserves cfg M t
    (process_consensus_outcome cfg M (processOutcomes cfg M db s) o)
    tx.txHash hest.1 hest.2
  rw [hsplit]
  exact ⟨hrest.2, hrest.1⟩

/-- Witness for the amended C4. -/
theorem delivered_tx_decided_witness :
    ((alGet (processOutcomes cfg0 M1 Db.fresh [outcome0]).accepted
        tx1.txHash).isSome ∨
     (alGet (processOutcomes cfg0 M1 Db.fresh [outcome0]).rejected
        tx1.txHash).isSome) ∧
    alGet (processOutcomes cfg0 M1 Db.fresh [outcome0]).proposed tx1.txHash = none :=
  delivered_tx_decided cfg0 M1 Db.fresh [outcome0] outcome0 0 tx1
    (by simp) (by decide)

theorem alGet_foldl_insert_unit (l : List Nat) (dp : List (Nat × Unit)) (q : Nat) :
    alGet (l.foldl (fun dp p => alInsert dp p ()) dp) q =
      if q ∈ l then some () else alGet dp q := by
  induction l generalizing dp with
  | nil => simp
  | cons a tl ih =>
      simp only [List.foldl_cons]
      rw [ih]
      by_cases hq : q ∈ tl
      · simp [hq]
      · by_cases ha : q = a <;> simp [hq, ha, alGet_alInsert]

theorem pco_epochs_committed (M : Modules) (db : Db) (o : ConsensusOutcome)
    (epoch : Nat) :
    (phaseB M epoch (phaseA M db (moduleItems o)) (transactionItems o)).epochs
      = db.epochs := by
  obtain ⟨_, _, _, a4, _, _⟩ := phaseA_fields M db (moduleItems o)
  obtain ⟨b1, _, _⟩ := phaseB_fields M epoch (phaseA M db (moduleItems o))
    (transactionItems o)
  exact b1.trans a4

theorem add_sig_to_prev_spec (cfg : EpochConfig) (current prev : EpochHistory) :
    add_sig_to_prev cfg current prev =
      if cfg.threshold ≤ (contributingPeers cfg current.items prev.hash).length then
        Except.ok { prev with last_signature := some (cfg.aggregate (validShares cfg current.items prev.hash)) }
      else
        Except.error (EpochVerifyError.NotEnoughValidSigShares
          (contributingPeers cfg current.items prev.hash)) := rfl

/-- C6: when processing epoch `n` with the entry for `n-1` present, at least
`threshold` distinct peers with valid `EpochInfo` shares cause the stored
entry `n-1` to be rewritten with `last_signature = Some(aggregate)`;
otherwise the entry is left unchanged and every contributor of epoch `n`
outside the valid-share peers is persisted under `DropPeerKey` in the same
phase-C database transaction. -/
theorem threshold_sign_prev_epoch (cfg : EpochConfig) (M : Modules) (db : Db)
    (o : ConsensusOutcome) (prev : EpochHistory)
    (hn : 1 ≤ o.epoch)
    (hprev : alGet db.epochs (o.epoch - 1) = some prev) :
    (cfg.threshold ≤ (contributingPeers cfg o.contributions prev.hash).length →
      alGet (process_consensus_outcome cfg M db o).epochs (o.epoch - 1) =
        some { prev with last_signature := some (cfg.aggregate (validShares cfg o.contributions prev.hash)) }) ∧
    ((contributingPeers cfg o.contributions prev.hash).length < cfg.threshold →
      alGet (process_consensus_outcome cfg M db o).epochs (o.epoch - 1) = some prev ∧
      (∀ q ∈ o.contributions.map Prod.fst,
        q ∉ contributingPeers cfg o.contributions prev.hash →
        alGet (process_consensus_outcome cfg M db o).dropPeers q = some ())) := by
  have hpco : process_consensus_outcome cfg M db o =
      phaseC cfg M o
        (phaseB M o.epoch (phaseA M db (moduleItems o)) (transactionItems o)) := rfl
  set db2 := phaseB M o.epoch (phaseA M db (moduleItems o)) (transactionItems o)
    with hdb2
  have hprev2 : alGet db2.epochs (o.epoch - 1) = some prev := by
    rw [hdb2, pco_epochs_committed M db o o.epoch]
    exact hprev
  have hne : ¬(o.epoch - 1 = o.epoch) := by omega
  have hit : (EpochHistory.new o.epoch o.contributions (some prev)).items
      = o.contributions := rfl
  have hep : (EpochHistory.new o.epoch o.contributions (some prev)).epoch
      = o.epoch := rfl
  constructor
  · intro hth
    have hsig : add_sig_to_prev cfg
        (EpochHistory.new o.epoch o.contributions (some prev)) prev =
        Except.ok { prev with last_signature := some (cfg.aggregate (validShares cfg o.contributions prev.hash)) } := by
      rw [add_sig_to_prev_spec, hit, if_pos hth]
    rw [hpco]
    simp only [phaseC, save_epoch_history, hprev2, hsig]
    rw [alGet_alInsert, hep, if_neg hne, alGet_alInsert, if_pos rfl]
  · intro hth
    have hsig : add_sig_to_prev cfg
        (EpochHistory.new o.epoch o.contributions (some prev)) prev =
        Except.error (EpochVerifyError.NotEnoughValidSigShares
          (contributingPeers cfg o.contributions prev.hash)) := by
      rw [add_sig_to_prev_spec, hit, if_neg (Nat.not_le.mpr hth)]
    constructor
    · rw [hpco]
      simp only [phaseC, save_epoch_history, hprev2, hsig]
      rw [alGet_alInsert, hep, if_neg hne]
      exact hprev2
    · intro q hq hqc
      have hcont : (contributingPeers cfg o.contributions prev.hash).contains q
          = false := by
        by_cases hc : (contributingPeers cfg o.contributions prev.hash).contains q
        · exact absurd (List.mem_of_elem_eq_true hc) hqc
        · simpa using hc
      have hqfil : q ∈ (o.contributions.map Prod.fst).filter
          (fun p => !((contributingPeers cfg o.contributions prev.hash).contains p)) := by
        rw [List.mem_filter]
        exact ⟨hq, by rw [hcont]; rfl⟩
      rw [hpco]
      simp only [phaseC, save_epoch_history, hprev2, hsig]
      rw [alGet_foldl_insert_unit, if_pos (List.mem_append_left _ hqfil)]

/-- Witness for C6: with threshold 1 peer 0's valid share signs epoch 0; with
threshold 2 the entry stays unsigned and the non-contributing peer 1 is
dropped. -/
theorem threshold_sign_prev_epoch_witness :
    alGet (process_consensus_outcome cfg1 M0 dbPrev outcomeSig).epochs 0 =
      some { eh0 with last_signature := some (cfg1.aggregate (validShares cfg1 outcomeSig.contributions eh0.hash)) } ∧
    (alGet (process_consensus_outcome cfg2 M0 dbPrev outcomeSig).epochs 0 =
      some eh0 ∧
     alGet (process_consensus_outcome cfg2 M0 dbPrev outcomeSig).dropPeers 1 =
      some ()) :=
  ⟨(threshold_sign_prev_epoch cfg1 M0 dbPrev outcomeSig eh0 (by decide)
      (by decide)).1 (by decide),
   ((threshold_sign_prev_epoch cfg2 M0 dbPrev outcomeSig eh0 (by decide)
      (by decide)).2 (by decide)).1,
   ((threshold_sign_prev_epoch cfg2 M0 dbPrev outcomeSig eh0 (by decide)
      (by decide)).2 (by decide)).2 1 (by decide) (by decide)⟩

/-- Witness for C10: with only the `mint` module registered, calling module
`wallet` panics and calling `mint` with an unknown path returns not-found. -/
theorem interconnect_call_behavior_witness :
    interconnect_call [apiMod] Db.fresh "wallet" "coins" 5 = CallResult.panicked ∧
    interconnect_call [apiMod] Db.fresh "mint" "balance" 5 =
      CallResult.apiError (ApiError.not_found "Method not found") :=
  ⟨(interconnect_call_behavior [apiMod] Db.fresh "wallet" "coins" 5).1
      (by intro m hm; rw [List.mem_singleton] at hm; subst hm; decide),
   (interconnect_call_behavior [apiMod] Db.fresh "mint" "balance" 5).2
      apiMod (by rfl) (by rfl)⟩

theorem phaseC_lastEpoch (cfg : EpochConfig) (M : Modules) (o : ConsensusOutcome)
    (db : Db) : (phaseC cfg M o db).lastEpoch = some o.epoch := rfl

theorem phaseC_epochs_fresh (cfg : EpochConfig) (M : Modules)
    (o : ConsensusOutcome) (db : Db)
    (hnone : alGet db.epochs (o.epoch - 1) = none) :
    (phaseC cfg M o db).epochs =
      alInsert db.epochs o.epoch (EpochHistory.new o.epoch o.contributions none) := by
  simp only [phaseC, save_epoch_history, hnone]
  rfl

theorem phaseC_epochs_get (cfg : EpochConfig) (M : Modules) (o : ConsensusOutcome)
    (db : Db) (prev : EpochHistory)
    (hprev : alGet db.epochs (o.epoch - 1) = some prev) :
    ∃ prevE : EpochHistory, prevE.hash = prev.hash ∧
      prevE.previous_hash = prev.previous_hash ∧
      ∀ m, alGet (phaseC cfg M o db).epochs m =
        (if m = o.epoch then
          some (EpochHistory.new o.epoch o.contributions (some prev))
         else if m = o.epoch - 1 then some prevE
         else alGet db.epochs m) := by
  have hit : (EpochHistory.new o.epoch o.contributions (some prev)).items
      = o.contributions := rfl
  have hep : (EpochHistory.new o.epoch o.contributions (some prev)).epoch
      = o.epoch := rfl
  by_cases hth : cfg.threshold ≤
      (contributingPeers cfg o.contributions prev.hash).length
  · refine ⟨{ prev with last_signature := some (cfg.aggregate (validShares cfg o.contributions prev.hash)) },
      rfl, rfl, ?_⟩
    intro m
    have hsig : add_sig_to_prev cfg
        (EpochHistory.new o.epoch o.contributions (some prev)) prev =
        Except.ok { prev with last_signature := some (cfg.aggregate (validShares cfg o.contributions prev.hash)) } := by
      rw [add_sig_to_prev_spec, hit, if_pos hth]
    simp only [phaseC, save_epoch_history, hprev, hsig]
    rw [alGet_alInsert, hep, alGet_alInsert]
  · refine ⟨prev, rfl, rfl, ?_⟩
    intro m
    have hsig : add_sig_to_prev cfg
        (EpochHistory.new o.epoch o.contributions (some prev)) prev =
        Except.error (EpochVerifyError.NotEnoughValidSigShares
          (contributingPeers cfg o.contributions prev.hash)) := by
      rw [add_sig_to_prev_spec, hit, if_neg (Nat.not_le.mpr (Nat.lt_of_not_le hth))]
    simp only [phaseC, save_epoch_history, hprev, hsig]
    rw [alGet_alInsert, hep]
    by_cases hm : m = o.epoch
    · rw [if_pos hm, if_pos hm]
    · rw [if_neg hm, if_neg hm]
      by_cases hm2 : m = o.epoch - 1
      · rw [if_pos hm2, hm2]
        exact hprev
      · rw [if_neg hm2]

theorem epochChain_step (cfg : EpochConfig) (M : Modules) (db : Db)
    (o : ConsensusOutcome) (k : Nat) (hk : 1 ≤ k) (hoe : o.epoch = k)
    (hchain : EpochChain k db) :
    EpochChain (k + 1) (process_consensus_outcome cfg M db o) := by
  subst hoe
  obtain ⟨h1, h2, h3, h4⟩ := hchain
  have hpco : process_consensus_outcome cfg M db o =
      phaseC cfg M o
        (phaseB M o.epoch (phaseA M db (moduleItems o)) (transactionItems o)) := rfl
  set db2 := phaseB M o.epoch (phaseA M db (moduleItems o)) (transactionItems o)
    with hdb2
  have hep2 : db2.epochs = db.epochs := by
    rw [hdb2]
    exact pco_epochs_committed M db o o.epoch
  have hsome : (alGet db.epochs (o.epoch - 1)).isSome := (h1 (o.epoch - 1)).mpr (by omega)
  obtain ⟨prev, hprev⟩ := Option.isSome_iff_exists.mp hsome
  obtain ⟨prevE, hEh, hEp, hget⟩ := phaseC_epochs_get cfg M o db2 prev
    (by rw [hep2]; exact hprev)
  have hnewph : (EpochHistory.new o.epoch o.contributions (some prev)).previous_hash
      = prev.hash := rfl
  refine ⟨?_, ?_, ?_, ?_⟩
  · intro m
    rw [hpco, hget m]
    by_cases hm1 : m = o.epoch
    · simp only [if_pos hm1]
      constructor
      · intro
        omega
      · intro
        rfl
    · rw [if_neg hm1]
      by_cases hm2 : m = o.epoch - 1
      · simp only [if_pos hm2]
        constructor
        · intro
          omega
        · intro
          rfl
      · rw [if_neg hm2, hep2, h1 m]
        omega
  · rw [hpco, phaseC_lastEpoch]
    congr 1
  · intro e he
    rw [hpco, hget 0, if_neg (by omega : ¬((0 : Nat) = o.epoch))] at he
    by_cases h01 : (0 : Nat) = o.epoch - 1
    · rw [if_pos h01] at he
      have hee := Option.some.inj he
      rw [← hee, hEp]
      exact h3 prev (by rw [h01]; exact hprev)
    · rw [if_neg h01, hep2] at he
      exact h3 e he
  · intro j e p hje hjp
    rw [hpco, hget (j + 1)] at hje
    rw [hpco, hget j] at hjp
    by_cases hA : j + 1 = o.epoch
    · rw [if_pos hA] at hje
      have hee := Option.some.inj hje
      have hj : ¬(j = o.epoch) := by omega
      have hj2 : j = o.epoch - 1 := by omega
      rw [if_neg hj, if_pos hj2] at hjp
      have hpp := Option.some.inj hjp
      rw [← hee, hnewph, ← hpp, hEh]
    · rw [if_neg hA] at hje
      by_cases hB : j + 1 = o.epoch - 1
      · rw [if_pos hB] at hje
        have hee := Option.some.inj hje
        have hjne : ¬(j = o.epoch) := by omega
        have hjne2 : ¬(j = o.epoch - 1) := by omega
        rw [if_neg hjne, if_neg hjne2, hep2] at hjp
        have hchain := h4 j prev p (by rw [hB]; exact hprev) hjp
        rw [← hee, hEp]
        exact hchain
      · rw [if_neg hB, hep2] at hje
        have hlt : j + 1 < o.epoch := by
          have := (h1 (j + 1)).mp (by rw [hje]; rfl)
          omega
        have hjne : ¬(j = o.epoch) := by omega
        have hjne2 : ¬(j = o.epoch - 1) := by omega
        rw [if_neg hjne, if_neg hjne2, hep2] at hjp
        exact h4 j e p hje hjp

theorem epochChain_base (cfg : EpochConfig) (M : Modules) (o : ConsensusOutcome)
    (hoe : o.epoch = 0) :
    EpochChain 1 (process_consensus_outcome cfg M Db.fresh o) ∧
    (∀ e, alGet (process_consensus_outcome cfg M Db.fresh o).epochs 0 = some e →
      e.previous_hash = 0 ∧ e.last_signature = none) := by
  have hpco : process_consensus_outcome cfg M Db.fresh o =
      phaseC cfg M o
        (phaseB M o.epoch (phaseA M Db.fresh (moduleItems o)) (transactionItems o)) := rfl
  set db2 := phaseB M o.epoch (phaseA M Db.fresh (moduleItems o)) (transactionItems o)
    with hdb2
  have hep2 : db2.epochs = Db.fresh.epochs := by
    rw [hdb2]
    exact pco_epochs_committed M Db.fresh o o.epoch
  have hnone : alGet db2.epochs (o.epoch - 1) = none := by
    rw [hep2]
    rfl
  have hepochs := phaseC_epochs_fresh cfg M o db2 hnone
  constructor
  · refine ⟨?_, ?_, ?_, ?_⟩
    · intro m
      rw [hpco, hepochs, alGet_alInsert]
      by_cases hm : m = o.epoch
      · simp only [if_pos hm]
        constructor
        · intro
          omega
        · intro
          rfl
      · rw [if_neg hm, hep2]
        simp only [Db.fresh]
        constructor
        · intro hx
          exact absurd hx (by simp [alGet])
        · intro hx
          omega
    · rw [hpco, phaseC_lastEpoch, hoe]
    · intro e he
      rw [hpco, hepochs, alGet_alInsert] at he
      have hm : (0 : Nat) = o.epoch := by omega
      rw [if_pos hm] at he
      rw [← Option.some.inj he]
      rfl
    · intro j e p hje hjp
      rw [hpco, hepochs, alGet_alInsert,
        if_neg (by omega : ¬(j + 1 = o.epoch)), hep2] at hje
      exact absurd hje (by simp [Db.fresh, alGet])
  · intro e he
    rw [hpco, hepochs, alGet_alInsert] at he
    have hm : (0 : Nat) = o.epoch := by omega
    rw [if_pos hm] at he
    rw [← Option.some.inj he]
    exact ⟨rfl, rfl⟩

theorem epochChain_fold (cfg : EpochConfig) (M : Modules)
    (outcomes : List ConsensusOutcome) :
    ∀ (k : Nat) (db : Db), 1 ≤ k → EpochChain k db →
    (∀ i (hi : i < outcomes.length), (outcomes.get ⟨i, hi⟩).epoch = k + i) →
    EpochChain (k + outcomes.length) (processOutcomes cfg M db outcomes) := by
  induction outcomes with
  | nil =>
      intro k db hk hch _
      simpa [processOutcomes] using hch
  | cons o tl ih =>
      intro k db hk hch heps
      have ho : o.epoch = k := by simpa using heps 0 (by simp)
      have hstep := epochChain_step cfg M db o k hk ho hch
      have htl : ∀ i (hi : i < tl.length), (tl.get ⟨i, hi⟩).epoch = (k + 1) + i := by
        intro i hi
        have := heps (i + 1) (by simpa using Nat.succ_lt_succ hi)
        simp only [List.get_cons_succ] at this
        rw [this]
        omega
      have hres := ih (k + 1) (process_consensus_outcome cfg M db o) (by omega)
        hstep htl
      have hlen : k + (o :: tl).length = (k + 1) + tl.length := by
        simp [List.length_cons]
        omega
      rw [hlen]
      simpa [processOutcomes] using hres

/-- C5: on a fresh database with outcomes delivered for consecutive epochs
`0, 1, …`, after processing: the epoch-history entries present are exactly
`0 .. n`, `LastEpochKey` points at `n` (the highest entry), entry 0 has the
all-zero previous hash (and, when only epoch 0 was processed, no signature
yet), and every entry `j+1` chains from entry `j`'s hash. -/
theorem epoch_history_chain (cfg : EpochConfig) (M : Modules)
    (outcomes : List ConsensusOutcome)
    (hne : outcomes ≠ [])
    (heps : ∀ (k : Nat) (hk : k < outcomes.length),
      (outcomes.get ⟨k, hk⟩).epoch = k) :
    (∀ m, (alGet (processOutcomes cfg M Db.fresh outcomes).epochs m).isSome ↔
      m < outcomes.length) ∧
    (processOutcomes cfg M Db.fresh outcomes).lastEpoch =
      some (outcomes.length - 1) ∧
    (∀ e, alGet (processOutcomes cfg M Db.fresh outcomes).epochs 0 = some e →
      e.previous_hash = 0) ∧
    (∀ j e p,
      alGet (processOutcomes cfg M Db.fresh outcomes).epochs (j + 1) = some e →
      alGet (processOutcomes cfg M Db.fresh outcomes).epochs j = some p →
      e.previous_hash = p.hash) ∧
    (outcomes.length = 1 →
      ∀ e, alGet (processOutcomes cfg M Db.fresh outcomes).epochs 0 = some e →
      e.last_signature = none) := by
  rcases outcomes with _ | ⟨o0, rest⟩
  · exact absurd rfl hne
  have ho0 : o0.epoch = 0 := heps 0 (by simp)
  have hbase := epochChain_base cfg M o0 ho0
  have hrest : ∀ i (hi : i < rest.length), (rest.get ⟨i, hi⟩).epoch = 1 + i := by
    intro i hi
    have := heps (i + 1) (by simpa using Nat.succ_lt_succ hi)
    simp only [List.get_cons_succ] at this
    rw [this]
    omega
  have hchain := epochChain_fold cfg M rest 1
    (process_consensus_outcome cfg M Db.fresh o0) (Nat.le_refl 1) hbase.1 hrest
  have hsplit : processOutcomes cfg M Db.fresh (o0 :: rest) =
      processOutcomes cfg M (process_consensus_outcome cfg M Db.fresh o0) rest := by
    simp [processOutcomes]
  rw [hsplit]
  obtain ⟨c1, c2, c3, c4⟩ := hchain
  refine ⟨?_, ?_, c3, c4, ?_⟩
  · intro m
    have := c1 m
    rw [this]
    simp [List.length_cons]
    omega
  · rw [c2]
    congr 1
    simp [List.length_cons]
  · intro hlen1 e he
    have hrnil : rest = [] := by
      rcases rest with _ | ⟨r, rs⟩
      · rfl
      · simp [List.length_cons] at hlen1
    subst hrnil
    exact (hbase.2 e (by simpa [processOutcomes] using he)).2

/-- Witness for C5: two empty outcomes for epochs 0 and 1 leave
`LastEpochKey` pointing at epoch 1. -/
theorem epoch_history_chain_witness :
    (processOutcomes cfg1 M0 Db.fresh [oc0, oc1]).lastEpoch = some 1 := by
  have h := epoch_history_chain cfg1 M0 [oc0, oc1] (by decide)
    (by
      intro k hk
      simp only [List.length_cons, List.length_nil] at hk
      interval_cases k
      · rfl
      · rfl)
  simpa using h.2.1

end Fedimint
